import Mathlib

/-!
Verification of the Knowledge Retrieval & Tutoring Orchestration Engine of the
subject-tutoring repository.

The repository files available give the HTTP route handlers (knowledge routes),
the client chat orchestration (`handleSendMessage` in the app component) and the
chat input UI.  The engine proper (the `KnowledgeService` retrieval index, the
session history manager, the chat orchestrator service and the client message
store) is referenced by these callers but its source is not part of the corpus;
those parts are modelled here directly from the specification, and each such
definition is marked `Modelled from the spec:` in its doc comment.  Everything
else is translated from the source files.
-/

/-- Knowledge entry as in the repository's `KnowledgeItem` shape (id, category,
theorem title, description, keywords; the remaining pedagogical fields play no
role in the retrieval claims). -/
structure KnowledgeEntry where
  id : String
  category : String
  thmTitle : String
  description : String
  keywords : List String
  deriving DecidableEq, Repr

/-- Retrieval result: entry reference, relevance score, rank. -/
structure RetrievalResult where
  entry : KnowledgeEntry
  score : ℚ
  rank : Nat
  deriving DecidableEq, Repr

/-- A candidate entry paired with its corpus insertion index and its score. -/
structure Scored where
  idx : Nat
  entry : KnowledgeEntry
  score : ℚ
  deriving DecidableEq, Repr

/-- Pair every element of a list with its position, starting at `n`. -/
def enumFrom : Nat → List α → List (Nat × α)
  | _, [] => []
  | n, a :: as => (n, a) :: enumFrom (n + 1) as

/-- Check that `t` is an initial segment of `q` (character lists). -/
def headMatches : List Char → List Char → Bool
  | _, [] => true
  | [], _ :: _ => false
  | a :: as, b :: bs => a == b && headMatches as bs

/-- Check that `t` occurs contiguously somewhere inside `q` (character lists). -/
def hasSubstring : List Char → List Char → Bool
  | [], t => t.isEmpty
  | q :: qs, t => headMatches (q :: qs) t || hasSubstring qs t

/-- Unicode-aware containment of token `t` in query `q` (character level). -/
def occursIn (q t : String) : Bool := hasSubstring q.data t.data

/-- Modelled from the spec: tokens of an entry used by the lexical fallback are
its keyword set plus its title and description text. -/
def entryTokens (e : KnowledgeEntry) : List String :=
  e.keywords ++ [e.thmTitle, e.description]

/-- Modelled from the spec: lexical fallback score of an entry against a query,
the count of entry tokens shared with (occurring in) the query, normalized by
the candidate-set size `n`. -/
def lexicalScore (n : Nat) (q : String) (e : KnowledgeEntry) : ℚ :=
  ((entryTokens e).countP (fun t => !t.isEmpty && occursIn q t) : ℚ) / (n : ℚ)

/-- Dot product of two rational vectors. -/
def dotProduct : List ℚ → List ℚ → ℚ
  | a :: as, b :: bs => a * b + dotProduct as bs
  | _, _ => 0

/-- Modelled from the spec: cosine similarity of pre-normalized embedding
vectors is their dot product. -/
def cosineSim (a b : List ℚ) : ℚ := dotProduct a b

/-- Modelled from the spec: candidate set of a retrieval call — the corpus
entries paired with their insertion index, restricted to the category filter
when one is given. -/
def candidateEntries (corpus : List KnowledgeEntry) (filt : Option String) :
    List (Nat × KnowledgeEntry) :=
  (enumFrom 0 corpus).filter fun p =>
    match filt with
    | some c => p.2.category == c
    | none => true

/-- Modelled from the spec: score one candidate.  `qe` is the outcome of the
query-embedding call (`none` means the embedding provider is unavailable), `ev`
maps an entry id to its cached embedding vector, `n` is the candidate-set size. -/
def scoreOf (qe : Option (List ℚ)) (ev : String → List ℚ) (n : Nat) (q : String)
    (p : Nat × KnowledgeEntry) : Scored :=
  ⟨p.1, p.2,
    match qe with
    | some qv => cosineSim qv (ev p.2.id)
    | none => lexicalScore n q p.2⟩

/-- Ranking order on scored candidates: strictly greater score first, ties
broken by smaller corpus insertion index. -/
def scoreRel (a b : Scored) : Prop :=
  b.score < a.score ∨ (a.score = b.score ∧ a.idx ≤ b.idx)

instance : DecidableRel scoreRel := fun a b => by
  unfold scoreRel; exact inferInstance

instance : IsTotal Scored scoreRel :=
  ⟨fun a b => by
    rcases lt_trichotomy a.score b.score with h | h | h
    · exact Or.inr (Or.inl h)
    · rcases Nat.le_total a.idx b.idx with hi | hi
      · exact Or.inl (Or.inr ⟨h, hi⟩)
      · exact Or.inr (Or.inr ⟨h.symm, hi⟩)
    · exact Or.inl (Or.inl h)⟩

instance : IsTrans Scored scoreRel :=
  ⟨fun a b c hab hbc => by
    rcases hab with h1 | ⟨h1e, h1i⟩
    · rcases hbc with h2 | ⟨h2e, h2i⟩
      · exact Or.inl (h2.trans h1)
      · exact Or.inl (h2e ▸ h1)
    · rcases hbc with h2 | ⟨h2e, h2i⟩
      · exact Or.inl (h1e ▸ h2)
      · exact Or.inr ⟨h1e.trans h2e, h1i.trans h2i⟩⟩

/-- Modelled from the spec: sort scored candidates (descending score, ties by
insertion order), keep the first `k`, and attach ranks `0, 1, …`. -/
def rankResults (scored : List Scored) (k : Nat) : List RetrievalResult :=
  (enumFrom 0 ((List.insertionSort scoreRel scored).take k)).map fun p =>
    ⟨p.2.entry, p.2.score, p.1⟩

/-- Modelled from the spec: the Semantic Retrieval Index operation
`retrieve(query, k, categoryFilter)` of the missing `KnowledgeService`.
`qe` is the outcome of the query-embedding call (`none` when the embedding
provider is unavailable, which triggers the lexical fallback), `ev` gives the
cached entry embeddings. -/
def retrieve (qe : Option (List ℚ)) (ev : String → List ℚ)
    (corpus : List KnowledgeEntry) (q : String) (k : Nat)
    (filt : Option String) : List RetrievalResult :=
  let cands := candidateEntries corpus filt
  rankResults (cands.map (scoreOf qe ev cands.length q)) k

/-- Position of the first entry with id `i` in the corpus (insertion order). -/
def entryPos (corpus : List KnowledgeEntry) (i : String) : Nat :=
  corpus.findIdx fun e => e.id == i

/-- Sample entry used in the spec's end-to-end retrieval scenario. -/
def pythEntry : KnowledgeEntry :=
  ⟨"math_pythagorean_001", "math", "勾股定理",
   "直角三角形两直角边的平方和等于斜边的平方", ["勾股定理", "直角三角形"]⟩

/-- Sample entry unrelated to the geometry queries. -/
def photoEntry : KnowledgeEntry :=
  ⟨"bio_photosynthesis_001", "biology", "光合作用",
   "植物利用光能将二氧化碳和水合成有机物", ["光合作用", "叶绿体"]⟩

/-- Value of the `query` field of a parsed JSON request body. -/
inductive JSVal where
  | undef
  | nullv
  | str (s : String)
  | num (n : Int)
  | boolv (b : Bool)
  deriving DecidableEq, Repr

/-- JavaScript truthiness of a `JSVal` (the `!query` test of the handler). -/
def truthy : JSVal → Bool
  | .undef => false
  | .nullv => false
  | .str s => !s.isEmpty
  | .num n => n != 0
  | .boolv b => b

/-- The handler's `typeof query !== 'string'` test. -/
def isStringVal : JSVal → Bool
  | .str _ => true
  | _ => false

/-- The string carried by a `JSVal` known to be a string. -/
def strVal : JSVal → String
  | .str s => s
  | _ => ""

/-- Body of a POST /api/knowledge/search request: `query`, `category`, `limit`. -/
structure SearchBody where
  query : JSVal
  category : Option String
  limit : Option Nat

/-- Response shape of the search route: HTTP status, error code, data. -/
structure SearchResponse where
  status : Nat
  errorCode : Option String
  results : List RetrievalResult

/-- The POST /api/knowledge/search handler of the knowledge routes: rejects a
missing, empty or non-string `query` with 400 VALIDATION_ERROR before invoking
retrieval, defaults `limit` to 5, and otherwise invokes the retrieval operation
once.  The second component counts retrieval invocations. -/
def searchHandler (qe : Option (List ℚ)) (ev : String → List ℚ)
    (corpus : List KnowledgeEntry) (body : SearchBody) : SearchResponse × Nat :=
  if !truthy body.query || !isStringVal body.query then
    (⟨400, some "VALIDATION_ERROR", []⟩, 0)
  else
    (⟨200, none,
      retrieve qe ev corpus (strVal body.query) (body.limit.getD 5) body.category⟩, 1)

/-- Four-entry corpus with distinct ids, used to exercise the handler's default
result limit. -/
def corpusFour : List KnowledgeEntry :=
  [⟨"m1", "math", "定理甲", "描述一", ["甲"]⟩,
   ⟨"m2", "math", "定理乙", "描述二", ["乙"]⟩,
   ⟨"m3", "math", "定理丙", "描述三", ["丙"]⟩,
   ⟨"m4", "math", "定理丁", "描述四", ["丁"]⟩]

/-- Typed part of a multimodal message content (the source's `text` and
`image_url` items). -/
inductive ContentPart where
  | text (s : String)
  | imageUrl (url : String)
  deriving DecidableEq, Repr

/-- Message content: a plain text scalar or an ordered sequence of parts. -/
inductive MsgContent where
  | plain (s : String)
  | parts (ps : List ContentPart)
  deriving DecidableEq, Repr

/-- Chat message: id, role, content, timestamp. -/
structure Message where
  id : String
  role : String
  content : MsgContent
  timestamp : Nat
  deriving DecidableEq, Repr

/-- Default prompt text substituted by `handleSendMessage` when images are sent
with an empty message text. -/
def defaultImagePrompt : String := "请仔细观察这道题目，给出详细的解题步骤和答案"

/-- User content built by `handleSendMessage`: the plain text when no images
are supplied; otherwise a text part (with the default prompt substituted for an
empty text) followed by one image-reference part per supplied image, in order. -/
def buildUserContent (text : String) (images : List String) : MsgContent :=
  if images.length > 0 then
    .parts (.text (if text.isEmpty then defaultImagePrompt else text) ::
      images.map ContentPart.imageUrl)
  else
    .plain text

/-- Modelled from the spec: the cap of the Session History Manager — history is
bounded to the most recent 20 messages. -/
def maxHistoryMessages : Nat := 20

/-- State of the Session History Manager: session id to stored messages. -/
abbrev SessionStore := List (String × List Message)

/-- Modelled from the spec: stored history of a session; an unseen session id
reads as an empty history. -/
def getSession (st : SessionStore) (sid : String) : List Message :=
  match st.find? (fun p => p.1 == sid) with
  | some p => p.2
  | none => []

/-- Replace (or create) the stored history of one session. -/
def setSession : SessionStore → String → List Message → SessionStore
  | [], sid, h => [(sid, h)]
  | p :: rest, sid, h =>
    if p.1 == sid then (sid, h) :: rest else p :: setSession rest sid h

/-- Modelled from the spec: FIFO cap — drop the oldest messages beyond the most
recent `maxHistoryMessages`. -/
def capHistory (h : List Message) : List Message :=
  if h.length > maxHistoryMessages then h.drop (h.length - maxHistoryMessages)
  else h

/-- Modelled from the spec: `append` of the Session History Manager; the FIFO
cap is enforced within the same single state transition as the append. -/
def appendMessage (st : SessionStore) (sid : String) (m : Message) : SessionStore :=
  setSession st sid (capHistory (getSession st sid ++ [m]))

/-- Modelled from the spec: `clear` of the Session History Manager. -/
def clearSession (st : SessionStore) (sid : String) : SessionStore :=
  setSession st sid []

/-- Store with no sessions. -/
def emptyStore : SessionStore := []

/-- Apply a sequence of append operations to a store. -/
def applyAppends (st : SessionStore) : List (String × Message) → SessionStore
  | [] => st
  | (sid, m) :: ops => applyAppends (appendMessage st sid m) ops

/-- A model-call turn: role and content as sent to the language model. -/
structure ChatTurn where
  role : String
  content : MsgContent
  deriving DecidableEq, Repr

/-- Text carried by one content part; image parts carry none. -/
def partText : ContentPart → Option String
  | .text s => some s
  | .imageUrl _ => none

/-- Whether a content part is a text part. -/
def isTextPart : ContentPart → Bool
  | .text _ => true
  | .imageUrl _ => false

/-- Modelled from the spec: flattening a stored message's content for a later
turn keeps only its text — the scalar of a plain message, the concatenated text
parts of a multimodal one; image parts contribute nothing. -/
def flattenText : MsgContent → String
  | .plain s => s
  | .parts ps => String.join (ps.filterMap partText)

/-- Modelled from the spec: a message with no text after flattening is dropped;
otherwise it is replayed as a text-only turn. -/
def flattenMessage (m : Message) : Option ChatTurn :=
  let s := flattenText m.content
  if s.isEmpty then none else some ⟨m.role, .plain s⟩

/-- Modelled from the spec: flatten an effective history into model turns. -/
def flattenHistory (h : List Message) : List ChatTurn :=
  h.filterMap flattenMessage

/-- Outcome of a language-model generation call. -/
inductive GenResult where
  | ok (text : String)
  | fail (err : String)
  deriving DecidableEq, Repr

/-- Modelled from the spec: the fixed persona/pedagogy preamble. -/
def basePersona : String := "你是一位循循善诱的学科辅导老师。"

/-- Modelled from the spec: serialized context block of the retrieved entries,
present only when retrieval returned results. -/
def contextBlock (ctx : List RetrievalResult) : String :=
  if ctx.isEmpty then ""
  else "相关知识：" ++ String.intercalate "；" (ctx.map fun r => r.entry.thmTitle)

/-- Modelled from the spec: instruction block listing the guiding questions,
present only when guidance is non-empty. -/
def guidanceBlock (gd : List String) : String :=
  if gd.isEmpty then "" else "引导问题：" ++ String.intercalate "；" gd

/-- Modelled from the spec: system prompt composed of the persona preamble plus
the optional context and guidance blocks. -/
def composeSystemPrompt (ctx : List RetrievalResult) (gd : List String) : ChatTurn :=
  ⟨"system", .plain (basePersona ++ contextBlock ctx ++ guidanceBlock gd)⟩

/-- A turn given to the Tutoring Orchestrator: message text, image references,
session id, category hint, caller-supplied history override. -/
structure Turn where
  message : String
  images : List String
  sessionId : String
  categoryHint : Option String
  historyOverride : Option (List Message)

/-- Modelled from the spec: the message sequence sent to the provider — system
prompt, flattened effective history (the override when present, else the stored
session history), then the new user turn.  `ro` and `go` are the best-effort
outcomes of retrieval and guidance; a failed outcome degrades to empty context
or guidance instead of failing the turn. -/
def promptMessages (ro : Except String (List RetrievalResult))
    (go : Except String (List String)) (st : SessionStore) (t : Turn) :
    List ChatTurn :=
  let hist := t.historyOverride.getD (getSession st t.sessionId)
  let ctx := match ro with | .ok r => r | .error _ => []
  let gd := match go with | .ok g => g | .error _ => []
  composeSystemPrompt ctx gd :: (flattenHistory hist ++
    [⟨"user", buildUserContent t.message t.images⟩])

/-- User message of a turn as appended to the session store (its identifier and
timestamp are opaque bookkeeping the spec does not constrain; fixed here). -/
def userMessageOf (t : Turn) : Message :=
  ⟨"", "user", buildUserContent t.message t.images, 0⟩

/-- Assistant message appended to the session store on completed generation. -/
def assistantMessageOf (text : String) : Message :=
  ⟨"", "assistant", .plain text, 0⟩

/-- Modelled from the spec: the orchestrator's `answer`.  On generation success
the user and assistant messages of the turn are appended to the session store;
on generation failure the error propagates and the store is unchanged. -/
def answer (gen : List ChatTurn → GenResult)
    (ro : Except String (List RetrievalResult))
    (go : Except String (List String)) (st : SessionStore) (t : Turn) :
    Except String String × SessionStore :=
  match gen (promptMessages ro go st t) with
  | .ok text =>
    (.ok text,
      appendMessage (appendMessage st t.sessionId (userMessageOf t)) t.sessionId
        (assistantMessageOf text))
  | .fail e => (.error e, st)

/-- Client chat store state: the message list rendered by the chat box. -/
structure ChatStore where
  messages : List Message
  deriving DecidableEq, Repr

/-- Modelled from the spec: the client store's conversation history is its
stored messages in order (the store source is not in the corpus). -/
def getConversationHistory (st : ChatStore) : List Message := st.messages

/-- Modelled from the spec: the client store's `addMessage` appends. -/
def addMessage (st : ChatStore) (m : Message) : ChatStore :=
  ⟨st.messages ++ [m]⟩

/-- Data computed by `handleSendMessage` up to the chat-service call: the
history captured for the request, the user message added to the store, and the
store after that addition. -/
structure SendPrep where
  suppliedHistory : List Message
  userMsg : Message
  storeAfterUserAdd : ChatStore
  deriving Repr

/-- The send path of `handleSendMessage`: the conversation history is captured
first, then the (possibly multimodal) user content is built and the user
message is added to the store; the captured history is what is supplied to the
chat service for the turn. -/
def handleSendMessagePrep (st : ChatStore) (text : String) (images : List String)
    (newId : String) (ts : Nat) : SendPrep :=
  let history := getConversationHistory st
  let contentForDisplay := buildUserContent text images
  let userMsg : Message := ⟨newId, "user", contentForDisplay, ts⟩
  ⟨history, userMsg, addMessage st userMsg⟩

/-- Embedding cache state: entry id to cached embedding vector. -/
abbrev EmbedCache := List (String × List ℚ)

/-- Modelled from the spec: fetch an entry embedding through the cache,
computing and memoizing it on first need. -/
def getEmbed (ev : String → List ℚ) (c : EmbedCache) (i : String) :
    List ℚ × EmbedCache :=
  match c.find? (fun p => p.1 == i) with
  | some p => (p.2, c)
  | none => (ev i, (i, ev i) :: c)

/-- A cache is coherent when every stored vector is the provider's vector for
that entry id. -/
def CacheWF (ev : String → List ℚ) (c : EmbedCache) : Prop :=
  ∀ p ∈ c, p.2 = ev p.1

/-- Modelled from the spec: score all candidates against a query embedding,
fetching entry embeddings through the cache and threading the cache state. -/
def scoreAllCached (qv : List ℚ) (ev : String → List ℚ) (c : EmbedCache) :
    List (Nat × KnowledgeEntry) → List Scored × EmbedCache
  | [] => ([], c)
  | p :: rest =>
    let r := getEmbed ev c p.2.id
    let rs := scoreAllCached qv ev r.2 rest
    (⟨p.1, p.2, cosineSim qv r.1⟩ :: rs.1, rs.2)

/-- Modelled from the spec: `retrieve` with the stateful embedding cache; the
lexical fallback path does not consult the cache. -/
def retrieveCached (qe : Option (List ℚ)) (ev : String → List ℚ)
    (c : EmbedCache) (corpus : List KnowledgeEntry) (q : String) (k : Nat)
    (filt : Option String) : List RetrievalResult × EmbedCache :=
  let cands := candidateEntries corpus filt
  match qe with
  | none => (rankResults (cands.map (scoreOf none ev cands.length q)) k, c)
  | some qv =>
    let sc := scoreAllCached qv ev c cands
    (rankResults sc.1 k, sc.2)

/-- Sample plain user message. -/
def sampleMsg : Message := ⟨"m0", "user", .plain "你好", 0⟩

/-- Sample plain assistant message. -/
def sampleMsg2 : Message := ⟨"m1", "assistant", .plain "你好！有什么可以帮你？", 1⟩

/-- Sample orchestrator turn. -/
def sampleTurn : Turn := ⟨"什么是勾股定理", [], "s1", none, none⟩

/-- Session store holding a full 20-message history for session s1. -/
def fullStore : SessionStore := [("s1", List.replicate 20 sampleMsg)]

/-- Client chat store holding one message. -/
def sampleChatStore : ChatStore := ⟨[sampleMsg]⟩

/-- Generation stub that always succeeds. -/
def genOkSample : List ChatTurn → GenResult := fun _ => .ok "这是回答"

/-- Generation stub that always fails at the provider level. -/
def genFailSample : List ChatTurn → GenResult := fun _ => .fail "网络错误"

theorem length_enumFrom (n : Nat) (l : List α) : (enumFrom n l).length = l.length := by
  induction l generalizing n with
  | nil => rfl
  | cons a as ih => simp [enumFrom, ih]

theorem enumFrom_map_snd (n : Nat) (l : List α) : (enumFrom n l).map Prod.snd = l := by
  induction l generalizing n with
  | nil => rfl
  | cons a as ih => simp [enumFrom, ih]

theorem mem_enumFrom {p : Nat × α} :
    ∀ {n : Nat} {l : List α}, p ∈ enumFrom n l → n ≤ p.1 ∧ l[p.1 - n]? = some p.2 := by
  intro n l
  induction l generalizing n with
  | nil => intro h; simp [enumFrom] at h
  | cons a as ih =>
    intro h
    simp only [enumFrom, List.mem_cons] at h
    rcases h with h | h
    · subst h; simp
    · obtain ⟨h1, h2⟩ := ih h
      refine ⟨by omega, ?_⟩
      have he : p.1 - n = (p.1 - (n + 1)) + 1 := by omega
      rw [he]
      simpa using h2

theorem pairwise_fst_enumFrom (n : Nat) (l : List α) :
    (enumFrom n l).Pairwise fun p q => p.1 < q.1 := by
  induction l generalizing n with
  | nil => exact List.Pairwise.nil
  | cons a as ih =>
    simp only [enumFrom, List.pairwise_cons]
    exact ⟨fun q hq => by have := (mem_enumFrom hq).1; omega, ih (n + 1)⟩

theorem entryPos_getElem (l : List KnowledgeEntry)
    (hnd : (l.map KnowledgeEntry.id).Nodup) :
    ∀ (i : Nat) (e : KnowledgeEntry), l[i]? = some e → entryPos l e.id = i := by
  induction l with
  | nil => intro i e h; simp at h
  | cons a t ih =>
    intro i e h
    simp only [List.map_cons, List.nodup_cons] at hnd
    match i with
    | 0 =>
      simp only [List.getElem?_cons_zero, Option.some.injEq] at h
      subst h
      simp [entryPos, List.findIdx_cons]
    | i + 1 =>
      simp only [List.getElem?_cons_succ] at h
      have hmem : e ∈ t := by
        have hlt : i < t.length := by
          by_contra hge
          rw [List.getElem?_eq_none (by omega)] at h
          exact Option.noConfusion h
        have : t[i] = e := by
          have := h
          rw [List.getElem?_eq_getElem hlt] at this
          exact Option.some.inj this
        exact this ▸ t.getElem_mem hlt
      have hne : (a.id == e.id) = false := by
        apply beq_eq_false_iff_ne.2
        intro heq
        exact hnd.1 (heq ▸ List.mem_map_of_mem KnowledgeEntry.id hmem)
      have htail := ih hnd.2 i e h
      rw [entryPos, List.findIdx_cons, hne, cond_false]
      rw [entryPos] at htail
      omega

/-- C1: for every query string, every `k` and every optional category filter
(and any embedding-provider outcome), `retrieve` returns at most `k` results,
with no duplicate entry ids (given that corpus ids are unique), sorted by
non-increasing relevance score with ties broken by corpus insertion order. -/
theorem c1_retrieve_sorted_bounded_nodup (qe : Option (List ℚ))
    (ev : String → List ℚ) (corpus : List KnowledgeEntry) (q : String) (k : Nat)
    (filt : Option String) (hids : (corpus.map KnowledgeEntry.id).Nodup) :
    (retrieve qe ev corpus q k filt).length ≤ k ∧
    ((retrieve qe ev corpus q k filt).map fun r => r.entry.id).Nodup ∧
    (retrieve qe ev corpus q k filt).Pairwise
      (fun a b => b.score < a.score ∨
        (a.score = b.score ∧ entryPos corpus a.entry.id < entryPos corpus b.entry.id)) := by
  have hret : retrieve qe ev corpus q k filt =
      (enumFrom 0 ((List.insertionSort scoreRel
        ((candidateEntries corpus filt).map
          (scoreOf qe ev (candidateEntries corpus filt).length q))).take k)).map
        (fun p => (⟨p.2.entry, p.2.score, p.1⟩ : RetrievalResult)) := rfl
  set cands := candidateEntries corpus filt with hcands
  set scored := cands.map (scoreOf qe ev cands.length q) with hscored
  set sorted := List.insertionSort scoreRel scored with hsorted
  have hperm : List.Perm sorted scored := List.perm_insertionSort scoreRel scored
  have hsort : sorted.Pairwise scoreRel := List.sorted_insertionSort scoreRel scored
  have hsub : cands.Sublist (enumFrom 0 corpus) := List.filter_sublist _
  have hQ : ∀ x ∈ sorted, corpus[x.idx]? = some x.entry := by
    intro x hx
    have hx' : x ∈ scored := hperm.mem_iff.1 hx
    rcases List.mem_map.1 hx' with ⟨p, hp, rfl⟩
    have hp' : p ∈ enumFrom 0 corpus := hsub.subset hp
    have hm := (mem_enumFrom hp').2
    simpa [scoreOf] using hm
  have hidxnd : (sorted.map Scored.idx).Nodup := by
    have h2 : cands.Pairwise (fun p q => p.1 < q.1) :=
      (pairwise_fst_enumFrom 0 corpus).sublist hsub
    have h3 : scored.Pairwise (fun a b => a.idx < b.idx) :=
      List.pairwise_map.2 (h2.imp fun h => h)
    have h4 : (scored.map Scored.idx).Nodup :=
      List.pairwise_map.2 (h3.imp fun h => Nat.ne_of_lt h)
    exact ((hperm.map Scored.idx).nodup_iff).2 h4
  set tk := sorted.take k with htk
  have htksub : tk.Sublist sorted := List.take_sublist k sorted
  have htsort : tk.Pairwise scoreRel := hsort.sublist htksub
  have htknd : (tk.map Scored.idx).Nodup := (htksub.map Scored.idx).nodup hidxnd
  have htkne : tk.Pairwise (fun a b => a.idx ≠ b.idx) := List.pairwise_map.1 htknd
  have hcomb : tk.Pairwise
      (fun a b => b.score < a.score ∨ (a.score = b.score ∧ a.idx < b.idx)) := by
    refine (htsort.and htkne).imp ?_
    intro a b h
    rcases h with ⟨hlt | ⟨he, hle⟩, hne⟩
    · exact Or.inl hlt
    · exact Or.inr ⟨he, lt_of_le_of_ne hle hne⟩
  have hpos : ∀ x ∈ tk, entryPos corpus x.entry.id = x.idx := fun x hx =>
    entryPos_getElem corpus hids x.idx x.entry (hQ x (htksub.subset hx))
  have hEP : tk.Pairwise (fun a b => b.score < a.score ∨
      (a.score = b.score ∧ entryPos corpus a.entry.id < entryPos corpus b.entry.id)) := by
    refine List.Pairwise.imp_of_mem ?_ hcomb
    intro a b ha hb h
    rcases h with h | ⟨he, hlt⟩
    · exact Or.inl h
    · exact Or.inr ⟨he, by rw [hpos a ha, hpos b hb]; exact hlt⟩
  have hidnd : (tk.map fun x => x.entry.id).Nodup := by
    apply List.pairwise_map.2
    refine List.Pairwise.imp_of_mem ?_ htkne
    intro a b ha hb hne heq
    exact hne (by rw [← hpos a ha, ← hpos b hb, heq])
  refine ⟨?_, ?_, ?_⟩
  · rw [hret, List.length_map, length_enumFrom, List.length_take]
    exact Nat.min_le_left k _
  · rw [hret, List.map_map]
    have hcomp : ((fun r : RetrievalResult => r.entry.id) ∘
        (fun p : Nat × Scored => (⟨p.2.entry, p.2.score, p.1⟩ : RetrievalResult))) =
        (fun x : Scored => x.entry.id) ∘ Prod.snd := rfl
    rw [hcomp, ← List.map_map, enumFrom_map_snd]
    exact hidnd
  · rw [hret]
    apply List.pairwise_map.2
    have hsnd : ((enumFrom 0 tk).map Prod.snd).Pairwise
        (fun a b => b.score < a.score ∨
          (a.score = b.score ∧ entryPos corpus a.entry.id < entryPos corpus b.entry.id)) := by
      rw [enumFrom_map_snd]
      exact hEP
    exact List.pairwise_map.1 hsnd

theorem retrieve_length (qe : Option (List ℚ)) (ev : String → List ℚ)
    (corpus : List KnowledgeEntry) (q : String) (k : Nat) (filt : Option String) :
    (retrieve qe ev corpus q k filt).length =
      min k (candidateEntries corpus filt).length := by
  have hret : retrieve qe ev corpus q k filt =
      (enumFrom 0 ((List.insertionSort scoreRel
        ((candidateEntries corpus filt).map
          (scoreOf qe ev (candidateEntries corpus filt).length q))).take k)).map
        (fun p => (⟨p.2.entry, p.2.score, p.1⟩ : RetrievalResult)) := rfl
  rw [hret, List.length_map, length_enumFrom, List.length_take,
    (List.perm_insertionSort scoreRel _).length_eq, List.length_map]

theorem retrieve_entries_perm_of_le (qe : Option (List ℚ)) (ev : String → List ℚ)
    (corpus : List KnowledgeEntry) (q : String) (k : Nat) (filt : Option String)
    (hk : (candidateEntries corpus filt).length ≤ k) :
    List.Perm ((retrieve qe ev corpus q k filt).map fun r => r.entry)
      ((candidateEntries corpus filt).map Prod.snd) := by
  have hret : retrieve qe ev corpus q k filt =
      (enumFrom 0 ((List.insertionSort scoreRel
        ((candidateEntries corpus filt).map
          (scoreOf qe ev (candidateEntries corpus filt).length q))).take k)).map
        (fun p => (⟨p.2.entry, p.2.score, p.1⟩ : RetrievalResult)) := rfl
  set cands := candidateEntries corpus filt with hcands
  set scored := cands.map (scoreOf qe ev cands.length q) with hscored
  have hperm : List.Perm (List.insertionSort scoreRel scored) scored :=
    List.perm_insertionSort scoreRel scored
  have hlen : (List.insertionSort scoreRel scored).length ≤ k := by
    rw [hperm.length_eq, hscored, List.length_map]
    exact hk
  rw [hret, List.take_of_length_le hlen, List.map_map]
  have hcomp : ((fun r : RetrievalResult => r.entry) ∘
      (fun p : Nat × Scored => (⟨p.2.entry, p.2.score, p.1⟩ : RetrievalResult))) =
      (fun x : Scored => x.entry) ∘ Prod.snd := rfl
  rw [hcomp, ← List.map_map, enumFrom_map_snd]
  have h1 : List.Perm ((List.insertionSort scoreRel scored).map fun x => x.entry)
      (scored.map fun x => x.entry) := hperm.map _
  have h2 : (scored.map fun x => x.entry) = cands.map Prod.snd := by
    rw [hscored, List.map_map]; rfl
  rw [h2] at h1
  exact h1

/-- C2: if the embedding provider is unavailable (query embedding `none`),
`retrieve` still returns results — one per candidate up to `k`, never failing —
ranked by the lexical keyword-overlap score, and on the concrete two-entry
corpus the entry with keywords 勾股定理/直角三角形 ranks above the unrelated
entry for the query 直角三角形边长公式. -/
theorem c2_lexical_fallback_ranks_keyword_match :
    (∀ (ev : String → List ℚ) (corpus : List KnowledgeEntry) (q : String)
        (k : Nat) (filt : Option String),
      (retrieve none ev corpus q k filt).length =
        min k (candidateEntries corpus filt).length) ∧
    (retrieve none (fun _ => []) [photoEntry, pythEntry] "直角三角形边长公式" 2
        none).map (fun r => r.entry.id) =
      ["math_pythagorean_001", "bio_photosynthesis_001"] :=
  ⟨fun ev corpus q k filt => retrieve_length none ev corpus q k filt,
   by with_unfolding_all decide⟩

/-- C7 counterexample: the search route called without an explicit `limit` does
not default to 3 results — on a four-entry corpus it returns 4 results. -/
theorem c7_counterexample_default_is_not_three :
    ¬ ((searchHandler none (fun _ => []) corpusFour
        ⟨.str "定理", none, none⟩).1.results.length ≤ 3) := by
  with_unfolding_all decide

/-- C7 amended: the search route called without an explicit `limit` behaves as
if `limit = 5` (the handler's destructuring default), and `retrieve` returns
exactly `min k` and the candidate count results — when fewer candidates exist
than `k`, all of them are returned with no padding. -/
theorem c7_default_limit_five_no_padding :
    (∀ (qe : Option (List ℚ)) (ev : String → List ℚ)
        (corpus : List KnowledgeEntry) (qv : JSVal) (cat : Option String),
      searchHandler qe ev corpus ⟨qv, cat, none⟩ =
        searchHandler qe ev corpus ⟨qv, cat, some 5⟩) ∧
    (∀ (qe : Option (List ℚ)) (ev : String → List ℚ)
        (corpus : List KnowledgeEntry) (q : String) (k : Nat)
        (filt : Option String),
      (retrieve qe ev corpus q k filt).length =
        min k (candidateEntries corpus filt).length ∧
      ((candidateEntries corpus filt).length ≤ k →
        List.Perm ((retrieve qe ev corpus q k filt).map fun r => r.entry)
          ((candidateEntries corpus filt).map Prod.snd))) :=
  ⟨fun _ _ _ _ _ => rfl,
   fun qe ev corpus q k filt =>
    ⟨retrieve_length qe ev corpus q k filt,
     fun hk => retrieve_entries_perm_of_le qe ev corpus q k filt hk⟩⟩

/-- C9: for every request body whose `query` field is missing, empty or not a
string, the search handler returns 400 with code VALIDATION_ERROR and never
invokes retrieval; for every non-empty string `query` it invokes retrieval
exactly once and returns 200. -/
theorem c9_search_validation (qe : Option (List ℚ)) (ev : String → List ℚ)
    (corpus : List KnowledgeEntry) :
    (∀ body : SearchBody, isStringVal body.query = false ∨ body.query = .str "" →
      (searchHandler qe ev corpus body).1.status = 400 ∧
      (searchHandler qe ev corpus body).1.errorCode = some "VALIDATION_ERROR" ∧
      (searchHandler qe ev corpus body).2 = 0) ∧
    (∀ (body : SearchBody) (s : String), body.query = .str s → s ≠ "" →
      (searchHandler qe ev corpus body).2 = 1 ∧
      (searchHandler qe ev corpus body).1.status = 200) := by
  constructor
  · intro body h
    rcases h with h | h
    · have hcond : (!truthy body.query || !isStringVal body.query) = true := by
        rw [h]; simp
      simp [searchHandler, hcond]
    · have hcond : (!truthy body.query || !isStringVal body.query) = true := by
        rw [h]; simp [truthy]
        exact Or.inl rfl
      simp [searchHandler, hcond]
  · intro body s hq hs
    have hcond : (!truthy body.query || !isStringVal body.query) = false := by
      rw [hq]
      simp [truthy, isStringVal]
      exact Bool.eq_false_iff.2 fun hc => hs ((String.isEmpty_iff s).1 hc)
    simp [searchHandler, hcond]

theorem getSession_setSession (st : SessionStore) (sid : String)
    (h : List Message) : getSession (setSession st sid h) sid = h := by
  induction st with
  | nil => simp [setSession, getSession, List.find?]
  | cons p rest ih =>
    cases hpeq : (p.1 == sid) with
    | true => simp [setSession, getSession, List.find?, hpeq]
    | false =>
      simp only [setSession, hpeq]
      rw [if_neg (by simp_all)]
      simpa [getSession, List.find?, hpeq] using ih

theorem getSession_setSession_ne (st : SessionStore) (sid sid' : String)
    (h : List Message) (hne : sid' ≠ sid) :
    getSession (setSession st sid h) sid' = getSession st sid' := by
  induction st with
  | nil =>
    simp only [setSession, getSession, List.find?]
    rw [show (sid == sid') = false from beq_eq_false_iff_ne.2 (Ne.symm hne)]
  | cons p rest ih =>
    cases hpeq : (p.1 == sid) with
    | true =>
      have hp1 : p.1 = sid := beq_iff_eq.1 hpeq
      simp only [setSession, hpeq, if_pos rfl]
      simp only [getSession, List.find?]
      rw [show (sid == sid') = false from beq_eq_false_iff_ne.2 (Ne.symm hne),
        show (p.1 == sid') = false from
          beq_eq_false_iff_ne.2 (hp1 ▸ Ne.symm hne)]
    | false =>
      simp only [setSession, hpeq]
      rw [if_neg (by simp_all)]
      cases hq : (p.1 == sid') with
      | true => simp [getSession, List.find?, hq]
      | false => simpa [getSession, List.find?, hq] using ih

theorem getSession_appendMessage (st : SessionStore) (sid : String)
    (m : Message) :
    getSession (appendMessage st sid m) sid =
      capHistory (getSession st sid ++ [m]) := by
  rw [appendMessage, getSession_setSession]

theorem capHistory_length_le (h : List Message) :
    (capHistory h).length ≤ maxHistoryMessages := by
  rw [capHistory]
  split
  · rw [List.length_drop]; omega
  · omega

theorem capHistory_eq_drop (h : List Message) :
    capHistory h = h.drop (h.length - maxHistoryMessages) := by
  rw [capHistory]
  split
  · rfl
  · rw [show h.length - maxHistoryMessages = 0 by omega, List.drop_zero]

theorem capHistory_append_one (l : List Message) (a : Message) :
    capHistory (capHistory l ++ [a]) = capHistory (l ++ [a]) := by
  rw [capHistory_eq_drop l, capHistory_eq_drop, capHistory_eq_drop]
  have h1 : (List.drop (l.length - maxHistoryMessages) l ++ [a]).length -
      maxHistoryMessages ≤ (List.drop (l.length - maxHistoryMessages) l).length := by
    simp only [List.length_append, List.length_drop, List.length_cons,
      List.length_nil, maxHistoryMessages]
    omega
  have h2 : (l ++ [a]).length - maxHistoryMessages ≤ l.length := by
    simp only [List.length_append, List.length_cons, List.length_nil,
      maxHistoryMessages]
    omega
  rw [List.drop_append_of_le_length h1, List.drop_append_of_le_length h2,
    List.drop_drop]
  congr 2
  simp only [List.length_append, List.length_drop, List.length_cons,
    List.length_nil, maxHistoryMessages]
  omega

/-- C3: the Session History Manager's `get` never returns more than 20 messages
after any sequence of appends from the empty store; appending to a full
(20-message) history evicts the oldest message; and the cap is enforced in the
same single state transition as the append. -/
theorem c3_history_capped_fifo :
    (∀ (ops : List (String × Message)) (sid : String),
      (getSession (applyAppends emptyStore ops) sid).length ≤ 20) ∧
    (∀ (st : SessionStore) (sid : String) (m : Message),
      (getSession st sid).length = maxHistoryMessages →
      getSession (appendMessage st sid m) sid =
        (getSession st sid).drop 1 ++ [m]) ∧
    (∀ (st : SessionStore) (sid : String) (m : Message),
      getSession (appendMessage st sid m) sid =
        capHistory (getSession st sid ++ [m])) := by
  refine ⟨?_, ?_, fun st sid m => getSession_appendMessage st sid m⟩
  · have key : ∀ (ops : List (String × Message)) (st : SessionStore),
        (∀ sid, (getSession st sid).length ≤ 20) →
        ∀ sid, (getSession (applyAppends st ops) sid).length ≤ 20 := by
      intro ops
      induction ops with
      | nil => intro st hst sid; exact hst sid
      | cons op rest ih =>
        intro st hst sid
        rcases op with ⟨osid, m⟩
        refine ih (appendMessage st osid m) ?_ sid
        intro sid'
        by_cases hsid : sid' = osid
        · subst hsid
          rw [getSession_appendMessage]
          exact capHistory_length_le _
        · rw [appendMessage, getSession_setSession_ne st osid sid' _ hsid]
          exact hst sid'
    intro ops sid
    refine key ops emptyStore ?_ sid
    intro sid'
    simp [emptyStore, getSession, List.find?]
  · intro st sid m hlen
    rw [getSession_appendMessage, capHistory_eq_drop, List.length_append, hlen]
    rw [List.drop_append_of_le_length (by rw [hlen]; simp [maxHistoryMessages])]
    congr 2

/-- C5: the constructed user content of a turn is the plain message text when
no images are supplied; with at least one image it is a text part (with the
default prompt substituted for an empty text) followed by exactly one
image-reference part per supplied image, in order. -/
theorem c5_user_content_shape (text : String) (images : List String) :
    (images = [] → buildUserContent text images = .plain text) ∧
    (images ≠ [] → buildUserContent text images =
      .parts (.text (if text = "" then defaultImagePrompt else text) ::
        images.map ContentPart.imageUrl)) := by
  constructor
  · intro h
    subst h
    rfl
  · intro h
    have hif : (if text.isEmpty then defaultImagePrompt else text) =
        (if text = "" then defaultImagePrompt else text) := by
      by_cases hc : text = ""
      · subst hc; rfl
      · rw [if_neg hc, if_neg fun hb => hc ((String.isEmpty_iff text).1 hb)]
    rw [buildUserContent, if_pos (by cases images with
      | nil => exact absurd rfl h
      | cons a as => simp), hif]

theorem filterMap_partText_filter (ps : List ContentPart) :
    (ps.filter isTextPart).filterMap partText = ps.filterMap partText := by
  induction ps with
  | nil => rfl
  | cons p rest ih =>
    cases p with
    | text s => simp [List.filter, List.filterMap, isTextPart, partText, ih]
    | imageUrl u => simp [List.filter, List.filterMap, isTextPart, partText, ih]

/-- C6: when history is flattened for a later turn's prompt, only text parts of
a multimodal message are retained (erasing its image parts does not change the
flattening), a message that flattens to nothing is omitted from the flattened
history rather than passed through, and a multimodal message with no text part
flattens to nothing. -/
theorem c6_flatten_keeps_text_only :
    (∀ (i r : String) (ts : Nat) (ps : List ContentPart),
      flattenMessage ⟨i, r, .parts ps, ts⟩ =
        flattenMessage ⟨i, r, .parts (ps.filter isTextPart), ts⟩) ∧
    (∀ (m : Message) (h1 h2 : List Message), flattenMessage m = none →
      flattenHistory (h1 ++ m :: h2) = flattenHistory (h1 ++ h2)) ∧
    (∀ (i r : String) (ts : Nat) (ps : List ContentPart),
      (∀ p ∈ ps, isTextPart p = false) →
      flattenMessage ⟨i, r, .parts ps, ts⟩ = none) := by
  refine ⟨?_, ?_, ?_⟩
  · intro i r ts ps
    rw [flattenMessage, flattenMessage]
    simp only [flattenText, filterMap_partText_filter]
  · intro m h1 h2 hm
    rw [flattenHistory, flattenHistory, List.filterMap_append,
      List.filterMap_append, List.filterMap_cons, hm]
  · intro i r ts ps hps
    have hnil : ps.filterMap partText = [] := by
      rw [List.filterMap_eq_nil_iff]
      intro p hp
      have := hps p hp
      cases p with
      | text s => exact absurd this (by simp [isTextPart])
      | imageUrl u => rfl
    simp only [flattenMessage, flattenText, hnil]
    rfl

/-- C4: for every call to `answer` — whatever the retrieval and guidance
outcomes, including both failing — generation success appends exactly the one
user and one assistant message of the turn to the session history (subject to
the FIFO cap), while a provider-level generation failure propagates to the
caller as the terminal result of the call and leaves the session store
unchanged. -/
theorem c4_answer_appends_pair_or_propagates (gen : List ChatTurn → GenResult)
    (ro : Except String (List RetrievalResult))
    (go : Except String (List String)) (st : SessionStore) (t : Turn) :
    (∀ text, gen (promptMessages ro go st t) = .ok text →
      (answer gen ro go st t).1 = .ok text ∧
      getSession (answer gen ro go st t).2 t.sessionId =
        capHistory (getSession st t.sessionId ++
          [userMessageOf t, assistantMessageOf text])) ∧
    (∀ e, gen (promptMessages ro go st t) = .fail e →
      answer gen ro go st t = (.error e, st)) := by
  constructor
  · intro text hgen
    rw [answer, hgen]
    refine ⟨rfl, ?_⟩
    rw [getSession_appendMessage, getSession_appendMessage,
      capHistory_append_one, List.append_assoc]
    rfl
  · intro e hgen
    rw [answer, hgen]

theorem getEmbed_fst (ev : String → List ℚ) (c : EmbedCache) (i : String)
    (hwf : CacheWF ev c) : (getEmbed ev c i).1 = ev i := by
  rw [getEmbed]
  cases hf : c.find? (fun p => p.1 == i) with
  | none => rfl
  | some p =>
    have hmem := List.mem_of_find?_eq_some hf
    have hbeq := List.find?_some hf
    have hp1 : p.1 = i := by simpa using hbeq
    simp [hwf p hmem, hp1]

theorem getEmbed_wf (ev : String → List ℚ) (c : EmbedCache) (i : String)
    (hwf : CacheWF ev c) : CacheWF ev (getEmbed ev c i).2 := by
  rw [getEmbed]
  cases hf : c.find? (fun p => p.1 == i) with
  | none =>
    intro p hp
    rcases List.mem_cons.1 hp with h | h
    · subst h; rfl
    · exact hwf p h
  | some p => exact hwf

theorem scoreAllCached_spec (qv : List ℚ) (ev : String → List ℚ)
    (l : List (Nat × KnowledgeEntry)) :
    ∀ (c : EmbedCache), CacheWF ev c →
      (scoreAllCached qv ev c l).1 =
        l.map (fun p => (⟨p.1, p.2, cosineSim qv (ev p.2.id)⟩ : Scored)) ∧
      CacheWF ev (scoreAllCached qv ev c l).2 := by
  induction l with
  | nil => intro c hwf; exact ⟨rfl, hwf⟩
  | cons p rest ih =>
    intro c hwf
    have h1 := getEmbed_fst ev c p.2.id hwf
    have h2 := getEmbed_wf ev c p.2.id hwf
    have h3 := ih (getEmbed ev c p.2.id).2 h2
    rw [scoreAllCached]
    constructor
    · simp only [List.map_cons]
      rw [h1, h3.1]
    · exact h3.2

/-- C8: with a fixed corpus state, calling `retrieve` twice with the same query
and arguments yields identical ordered result sequences: the second call (on
the cache state produced by the first) returns exactly the first call's
results, both being the deterministic pure ranking. -/
theorem c8_retrieve_deterministic_idempotent (qe : Option (List ℚ))
    (ev : String → List ℚ) (c : EmbedCache) (corpus : List KnowledgeEntry)
    (q : String) (k : Nat) (filt : Option String) (hwf : CacheWF ev c) :
    (retrieveCached qe ev c corpus q k filt).1 =
      (retrieveCached qe ev (retrieveCached qe ev c corpus q k filt).2
        corpus q k filt).1 ∧
    (retrieveCached qe ev c corpus q k filt).1 = retrieve qe ev corpus q k filt := by
  cases qe with
  | none => exact ⟨rfl, rfl⟩
  | some qv =>
    have h1 := scoreAllCached_spec qv ev (candidateEntries corpus filt) c hwf
    have h2 := scoreAllCached_spec qv ev (candidateEntries corpus filt)
      (scoreAllCached qv ev c (candidateEntries corpus filt)).2 h1.2
    constructor
    · show rankResults (scoreAllCached qv ev c (candidateEntries corpus filt)).1 k =
        rankResults (scoreAllCached qv ev
          (scoreAllCached qv ev c (candidateEntries corpus filt)).2
          (candidateEntries corpus filt)).1 k
      rw [h1.1, h2.1]
    · show rankResults (scoreAllCached qv ev c (candidateEntries corpus filt)).1 k =
        retrieve (some qv) ev corpus q k filt
      rw [h1.1]
      rfl

/-- C10: the conversation history supplied to the chat service for a turn is
captured before the turn's user message is added to the message store, so it
never contains that turn's own user message (for a fresh message id). -/
theorem c10_history_captured_before_add (st : ChatStore) (text : String)
    (images : List String) (newId : String) (ts : Nat)
    (hfresh : newId ∉ st.messages.map Message.id) :
    (handleSendMessagePrep st text images newId ts).suppliedHistory =
      getConversationHistory st ∧
    (handleSendMessagePrep st text images newId ts).storeAfterUserAdd.messages =
      st.messages ++ [(handleSendMessagePrep st text images newId ts).userMsg] ∧
    (handleSendMessagePrep st text images newId ts).userMsg ∉
      (handleSendMessagePrep st text images newId ts).suppliedHistory := by
  refine ⟨rfl, rfl, ?_⟩
  intro hmem
  exact hfresh (List.mem_map_of_mem Message.id hmem)

theorem c1_witness :
    (([pythEntry].map KnowledgeEntry.id).Nodup) ∧
    ((retrieve none (fun _ => []) [pythEntry] "什么是勾股定理" 1 none).length ≤ 1 ∧
     ((retrieve none (fun _ => []) [pythEntry] "什么是勾股定理" 1 none).map
       fun r => r.entry.id).Nodup ∧
     (retrieve none (fun _ => []) [pythEntry] "什么是勾股定理" 1 none).Pairwise
       (fun a b => b.score < a.score ∨
         (a.score = b.score ∧
          entryPos [pythEntry] a.entry.id < entryPos [pythEntry] b.entry.id))) :=
  ⟨by decide, c1_retrieve_sorted_bounded_nodup none (fun _ => []) [pythEntry]
    "什么是勾股定理" 1 none (by decide)⟩

theorem c3_witness :
    (getSession fullStore "s1").length = maxHistoryMessages ∧
    getSession (appendMessage fullStore "s1" sampleMsg2) "s1" =
      (getSession fullStore "s1").drop 1 ++ [sampleMsg2] :=
  ⟨by decide, c3_history_capped_fifo.2.1 fullStore "s1" sampleMsg2 (by decide)⟩

theorem c4_witness :
    (genOkSample (promptMessages (.error "嵌入不可用") (.error "无引导")
        emptyStore sampleTurn) = .ok "这是回答" ∧
     (answer genOkSample (.error "嵌入不可用") (.error "无引导")
        emptyStore sampleTurn).1 = .ok "这是回答" ∧
     getSession (answer genOkSample (.error "嵌入不可用") (.error "无引导")
        emptyStore sampleTurn).2 sampleTurn.sessionId =
       capHistory (getSession emptyStore sampleTurn.sessionId ++
         [userMessageOf sampleTurn, assistantMessageOf "这是回答"])) ∧
    (genFailSample (promptMessages (.error "嵌入不可用") (.error "无引导")
        emptyStore sampleTurn) = .fail "网络错误" ∧
     answer genFailSample (.error "嵌入不可用") (.error "无引导")
        emptyStore sampleTurn = (.error "网络错误", emptyStore)) :=
  ⟨⟨rfl, (c4_answer_appends_pair_or_propagates genOkSample (.error "嵌入不可用")
      (.error "无引导") emptyStore sampleTurn).1 "这是回答" rfl⟩,
   ⟨rfl, (c4_answer_appends_pair_or_propagates genFailSample (.error "嵌入不可用")
      (.error "无引导") emptyStore sampleTurn).2 "网络错误" rfl⟩⟩

theorem c5_witness :
    (([] : List String) = [] ∧ buildUserContent "你好" [] = .plain "你好") ∧
    ((["u1"] : List String) ≠ [] ∧ buildUserContent "" ["u1"] =
      .parts (.text (if "" = "" then defaultImagePrompt else "") ::
        (["u1"].map ContentPart.imageUrl))) :=
  ⟨⟨rfl, (c5_user_content_shape "你好" []).1 rfl⟩,
   ⟨List.cons_ne_nil "u1" [],
    (c5_user_content_shape "" ["u1"]).2 (List.cons_ne_nil "u1" [])⟩⟩

theorem c6_witness :
    (flattenMessage ⟨"i1", "user", .parts [.imageUrl "u"], 0⟩ = none ∧
     flattenHistory ([sampleMsg] ++
         (⟨"i1", "user", .parts [.imageUrl "u"], 0⟩ : Message) :: [sampleMsg2]) =
       flattenHistory ([sampleMsg] ++ [sampleMsg2])) ∧
    ((∀ p ∈ [ContentPart.imageUrl "u"], isTextPart p = false) ∧
     flattenMessage ⟨"i1", "user", .parts [ContentPart.imageUrl "u"], 0⟩ = none) :=
  ⟨⟨by decide, c6_flatten_keeps_text_only.2.1
      ⟨"i1", "user", .parts [.imageUrl "u"], 0⟩ [sampleMsg] [sampleMsg2] (by decide)⟩,
   ⟨by decide, c6_flatten_keeps_text_only.2.2 "i1" "user" 0
      [ContentPart.imageUrl "u"] (by decide)⟩⟩

theorem c7_witness :
    (candidateEntries [pythEntry] none).length ≤ 3 ∧
    List.Perm ((retrieve none (fun _ => []) [pythEntry] "你好" 3 none).map
        fun r => r.entry)
      ((candidateEntries [pythEntry] none).map Prod.snd) :=
  ⟨by decide,
   ((c7_default_limit_five_no_padding.2 none (fun _ => []) [pythEntry] "你好" 3
      none).2 (by decide))⟩

theorem c8_witness :
    CacheWF (fun _ => []) ([] : EmbedCache) ∧
    ((retrieveCached (some [1]) (fun _ => []) [] [pythEntry] "什么是勾股定理" 1
        none).1 =
       (retrieveCached (some [1]) (fun _ => [])
         (retrieveCached (some [1]) (fun _ => []) [] [pythEntry] "什么是勾股定理"
           1 none).2 [pythEntry] "什么是勾股定理" 1 none).1 ∧
     (retrieveCached (some [1]) (fun _ => []) [] [pythEntry] "什么是勾股定理" 1
        none).1 =
       retrieve (some [1]) (fun _ => []) [pythEntry] "什么是勾股定理" 1 none) :=
  ⟨fun p hp => absurd hp (List.not_mem_nil p),
   c8_retrieve_deterministic_idempotent (some [1]) (fun _ => []) [] [pythEntry]
     "什么是勾股定理" 1 none (fun p hp => absurd hp (List.not_mem_nil p))⟩

theorem c9_witness :
    ((isStringVal (JSVal.num 7) = false ∨ JSVal.num 7 = JSVal.str "") ∧
     (searchHandler none (fun _ => []) [pythEntry]
        ⟨JSVal.num 7, none, none⟩).1.status = 400 ∧
     (searchHandler none (fun _ => []) [pythEntry]
        ⟨JSVal.num 7, none, none⟩).1.errorCode = some "VALIDATION_ERROR" ∧
     (searchHandler none (fun _ => []) [pythEntry]
        ⟨JSVal.num 7, none, none⟩).2 = 0) ∧
    (((⟨JSVal.str "你好", none, none⟩ : SearchBody).query = JSVal.str "你好") ∧
     ("你好" ≠ "") ∧
     (searchHandler none (fun _ => []) [pythEntry]
        ⟨JSVal.str "你好", none, none⟩).2 = 1 ∧
     (searchHandler none (fun _ => []) [pythEntry]
        ⟨JSVal.str "你好", none, none⟩).1.status = 200) :=
  ⟨⟨Or.inl rfl, (c9_search_validation none (fun _ => []) [pythEntry]).1
      ⟨JSVal.num 7, none, none⟩ (Or.inl rfl)⟩,
   ⟨rfl, by decide, (c9_search_validation none (fun _ => []) [pythEntry]).2
      ⟨JSVal.str "你好", none, none⟩ "你好" rfl (by decide)⟩⟩

theorem c10_witness :
    ("m9" ∉ sampleChatStore.messages.map Message.id) ∧
    ((handleSendMessagePrep sampleChatStore "你好" [] "m9" 5).suppliedHistory =
       getConversationHistory sampleChatStore ∧
     (handleSendMessagePrep sampleChatStore "你好" [] "m9" 5).storeAfterUserAdd.messages =
       sampleChatStore.messages ++
         [(handleSendMessagePrep sampleChatStore "你好" [] "m9" 5).userMsg] ∧
     (handleSendMessagePrep sampleChatStore "你好" [] "m9" 5).userMsg ∉
       (handleSendMessagePrep sampleChatStore "你好" [] "m9" 5).suppliedHistory) :=
  ⟨by decide, c10_history_captured_before_add sampleChatStore "你好" [] "m9" 5
    (by decide)⟩
